import Mathlib

/-!
# Verification of the ProjectQABot retrieval core

A shallow embedding of the retrieval-and-grounding core of the ProjectQABot
repository (structure-aware chunking, vector index persistence, retrieval
filtering and deduplication, rule-based answer composition, conversational
short-circuit), together with proofs and refutations of the specified
properties.

Python strings are modelled as Lean `String` (a list of characters); all
Python string operations used by the code (`strip`, `lower`, `split`,
`join`, `in`, slicing) are re-implemented below on `List Char` so that the
embedding has exactly the semantics of the source, independent of Lean's
own string library. Python floats are modelled as `ℚ`; the scores the code
compares and thresholds are only ever compared, never mixed with
float-specific rounding, so this is faithful for every property below.
Machine integers are `Nat`/`Int` (Python integers are unbounded, so no
modular wrap is needed).
-/

namespace QABot

/-- Python whitespace test for a character (`str.strip`, `\s`, `str.split()`),
restricted to the ASCII whitespace that occurs in the corpus. -/
def isWS (c : Char) : Bool := c.isWhitespace

/-- Python `len(text)` counts characters. -/
def pyLen (s : String) : Nat := s.data.length

/-- Python `str.lower()` (ASCII case folding). -/
def pyLower (s : String) : String := String.mk (s.data.map Char.toLower)

/-- Python `str.upper()`-style character class test: `c` is an ASCII capital. -/
def isUpperAZ (c : Char) : Bool := 'A' ≤ c ∧ c ≤ 'Z'

/-- Strip leading and trailing whitespace from a character list
(Python `str.strip()`). -/
def stripList (l : List Char) : List Char :=
  ((l.dropWhile isWS).reverse.dropWhile isWS).reverse

/-- Python `str.strip()`. -/
def pyStrip (s : String) : String := String.mk (stripList s.data)

/-- Python `str.rstrip(chars)`: remove all trailing characters that belong
to `chars`. -/
def pyRstrip (chars : List Char) (s : String) : String :=
  String.mk ((s.data.reverse.dropWhile (fun c => chars.contains c)).reverse)

/-- Python `str.lstrip(chars)` analogue on both sides:
`str.strip(chars)` removes the given characters from both ends. -/
def pyStripChars (chars : List Char) (s : String) : String :=
  String.mk (((s.data.dropWhile (fun c => chars.contains c)).reverse.dropWhile
    (fun c => chars.contains c)).reverse)

/-- Python `sep.join(parts)`. -/
def pyJoin (sep : String) : List String → String
  | [] => ""
  | [s] => s
  | s :: rest => s ++ sep ++ pyJoin sep rest

/-- Python `text[:n]` character slicing. -/
def pyTake (n : Nat) (s : String) : String := String.mk (s.data.take n)

/-- Python `sub in s` substring test on character lists. -/
def infixOfList (needle : List Char) : List Char → Bool
  | [] => needle.isPrefixOf []
  | c :: rest => needle.isPrefixOf (c :: rest) || infixOfList needle rest

/-- Python `sub in s` substring test. -/
def pyIn (needle hay : String) : Bool := infixOfList needle.data hay.data

/-- Python `s.startswith(p)`. -/
def pyStartsWith (s p : String) : Bool := p.data.isPrefixOf s.data

/-- Split a character list at every occurrence of a separator character,
keeping empty pieces (Python `str.split("\n")`). -/
def splitOnChar (sep : Char) : List Char → List (List Char)
  | [] => [[]]
  | c :: rest =>
    let r := splitOnChar sep rest
    if c = sep then [] :: r
    else
      match r with
      | [] => [[c]]
      | p :: ps => (c :: p) :: ps

/-- Python `text.split("\n")`. -/
def pySplitLines (s : String) : List String :=
  (splitOnChar '\n' s.data).map String.mk

/-- Split into maximal runs of characters satisfying `p`, discarding the
rest (used for Python `str.split()` with no argument and for `\w+` runs). -/
def runsOf (p : Char → Bool) : List Char → List (List Char)
  | [] => []
  | c :: rest =>
    let r := runsOf p rest
    if p c then
      match rest with
      | [] => [[c]]
      | d :: _ =>
        if p d then
          match r with
          | [] => [[c]]
          | run :: runs => (c :: run) :: runs
        else [c] :: r
    else r

/-- Python `str.split()` with no argument: maximal non-whitespace runs. -/
def pySplitWs (s : String) : List String :=
  (runsOf (fun c => !isWS c) s.data).map String.mk

/-- Word characters of `re`'s `\w` (ASCII letters, digits, underscore). -/
def isWordChar (c : Char) : Bool := c.isAlphanum || c = '_'

/-- `re.findall(r"\b\w+\b", text)`: the maximal word-character runs. -/
def findWords (s : String) : List String :=
  (runsOf isWordChar s.data).map String.mk

/-- Python `str.title()` (ASCII): letters that follow a letter are
lowercased, letters that start a run are uppercased. -/
def titleCaseGo : Bool → List Char → List Char
  | _, [] => []
  | prevAlpha, c :: rest =>
    (if c.isAlpha then (if prevAlpha then c.toLower else c.toUpper) else c) ::
      titleCaseGo c.isAlpha rest

/-- Python `str.title()`. -/
def titleCase (s : String) : String := String.mk (titleCaseGo false s.data)

/-! ## Data model: `DocumentPage` and `Chunk` (src/core/ingestion.py,
src/core/chunking.py) -/

/-- `DocumentPage` from src/core/ingestion.py: one physical page of a
document. -/
structure DocumentPage where
  doc_name : String
  page_num : Nat
  text : String
  headings : List String := []
deriving DecidableEq, Repr

/-- `Chunk` from src/core/chunking.py lines 13-23: a text chunk with
metadata for retrieval and citation.  The Python field `section` is named
`sectionLabel` here because `section` is a Lean keyword. -/
structure Chunk where
  text : String
  doc_name : String
  page : Nat
  sectionLabel : String := ""
  clause_number : String := ""
  heading_path : String := ""
  cross_references : List String := []
  chunk_id : Nat := 0
deriving DecidableEq, Repr

/-- `Chunk.citation_string` (src/core/chunking.py lines 37-47): format the
chunk's source as a citation.  Python truthiness on a string is
non-emptiness. -/
def Chunk.citationString (c : Chunk) : String :=
  let parts := [c.doc_name]
  let parts := if c.clause_number ≠ "" then parts ++ ["§" ++ c.clause_number] else parts
  let parts :=
    if c.sectionLabel ≠ "" then parts ++ ["(" ++ c.sectionLabel ++ ")"]
    else if c.heading_path ≠ "" then parts ++ ["\x22" ++ c.heading_path ++ "\x22"]
    else parts
  let parts := parts ++ ["p." ++ toString c.page]
  pyJoin " " parts

/-! ## Auxiliary facts about decimal rendering and list containment -/

/-- `Nat.digitChar` never produces the section sign. -/
lemma digitChar_ne_sect (n : Nat) : Nat.digitChar n ≠ '§' := by
  by_cases h : n < 16
  · interval_cases n <;> decide
  · have e : Nat.digitChar n = '*' := by
      have h0 : n ≠ 0 := by omega
      have h1 : n ≠ 1 := by omega
      have h2 : n ≠ 2 := by omega
      have h3 : n ≠ 3 := by omega
      have h4 : n ≠ 4 := by omega
      have h5 : n ≠ 5 := by omega
      have h6 : n ≠ 6 := by omega
      have h7 : n ≠ 7 := by omega
      have h8 : n ≠ 8 := by omega
      have h9 : n ≠ 9 := by omega
      have h10 : n ≠ 10 := by omega
      have h11 : n ≠ 11 := by omega
      have h12 : n ≠ 12 := by omega
      have h13 : n ≠ 13 := by omega
      have h14 : n ≠ 14 := by omega
      have h15 : n ≠ 15 := by omega
      simp only [Nat.digitChar, h0, h1, h2, h3, h4, h5, h6, h7, h8, h9, h10,
        h11, h12, h13, h14, h15, if_false, ite_false]
    rw [e]
    decide

lemma toDigitsCore_ne_sect (b : Nat) : ∀ (fuel n : Nat) (acc : List Char),
    (∀ c ∈ acc, c ≠ '§') → ∀ c ∈ Nat.toDigitsCore b fuel n acc, c ≠ '§' := by
  intro fuel
  induction fuel with
  | zero => intro n acc hacc c hc; simp [Nat.toDigitsCore] at hc; exact hacc c hc
  | succ f ih =>
    intro n acc hacc c hc
    simp only [Nat.toDigitsCore] at hc
    split at hc
    · rcases List.mem_cons.mp hc with h | h
      · subst h; exact digitChar_ne_sect _
      · exact hacc c h
    · refine ih _ _ ?_ c hc
      intro d hd
      rcases List.mem_cons.mp hd with h | h
      · subst h; exact digitChar_ne_sect _
      · exact hacc d h

/-- The decimal rendering `str(n)` of a natural number never contains `§`. -/
lemma natRepr_ne_sect (n : Nat) : ∀ c ∈ (toString n).data, c ≠ '§' := by
  intro c hc
  have h : (toString n).data = Nat.toDigits 10 n := rfl
  rw [h] at hc
  exact toDigitsCore_ne_sect 10 _ _ [] (by simp) c hc

lemma inf_app {l₁ l₂ l₃ : List Char} (h : l₂ <:+: l₃) : l₂ <:+: l₁ ++ l₃ :=
  h.trans (List.suffix_append l₁ l₃).isInfix

lemma inf_cons {c : Char} {l₂ l₃ : List Char} (h : l₂ <:+: l₃) : l₂ <:+: c :: l₃ :=
  h.trans (List.suffix_append [c] l₃).isInfix

lemma suf_app {l₁ l₂ l₃ : List Char} (h : l₂ <:+ l₃) : l₂ <:+ l₁ ++ l₃ :=
  h.trans (List.suffix_append l₁ l₃)

lemma suf_cons {c : Char} {l₂ l₃ : List Char} (h : l₂ <:+ l₃) : l₂ <:+ c :: l₃ :=
  h.trans (List.suffix_append [c] l₃)

/-- C7: `citation_string()` always contains the chunk's `doc_name` (as a
prefix) and the page marker `p.<page>` (as a suffix); when `clause_number`
is non-empty it contains the clause marker `§<clause_number>`; and when
`clause_number` is empty no `§` occurs anywhere in the citation, provided
the remaining textual fields do not themselves contain a `§`.  The result
is a pure function of the chunk's fields. -/
theorem c7_citation_wellformed (c : Chunk) :
    c.doc_name.data <+: c.citationString.data ∧
    ("p." ++ toString c.page).data <:+ c.citationString.data ∧
    (c.clause_number ≠ "" → ("§" ++ c.clause_number).data <:+: c.citationString.data) ∧
    (c.clause_number = "" → (∀ x ∈ c.doc_name.data, x ≠ '§') →
      (∀ x ∈ c.sectionLabel.data, x ≠ '§') → (∀ x ∈ c.heading_path.data, x ≠ '§') →
      ∀ x ∈ c.citationString.data, x ≠ '§') := by
  refine ⟨?_, ?_, ?_, ?_⟩
  · unfold Chunk.citationString
    split_ifs <;> simp [pyJoin, String.data_append]
  · unfold Chunk.citationString
    split_ifs <;> simp [pyJoin, String.data_append] <;>
      (repeat first
        | exact List.suffix_refl _
        | apply suf_app
        | apply suf_cons)
  · intro h
    unfold Chunk.citationString
    split_ifs <;> simp [pyJoin, String.data_append, h] <;>
      (repeat first
        | exact (List.prefix_append _ _).isInfix
        | apply inf_cons
        | apply inf_app)
  · intro h hdoc hsec hhp x hx
    unfold Chunk.citationString at hx
    rw [h] at hx
    simp only [ne_eq, eq_self_iff_true, not_true, if_false] at hx
    split_ifs at hx <;>
      simp only [pyJoin, String.data_append, List.append_assoc, List.cons_append,
        List.nil_append, List.mem_append, List.mem_cons] at hx <;>
      casesm* _ ∨ _ <;>
      first
        | exact hdoc x ‹_›
        | exact hsec x ‹_›
        | exact hhp x ‹_›
        | exact natRepr_ne_sect _ x ‹_›
        | (subst x; decide)

/-- The `Chunk` of the specification's worked scenario. -/
def scenarioChunk : Chunk :=
  { text := "Wear and tear is excluded.", doc_name := "Home.pdf", page := 12,
    sectionLabel := "Exclusions", clause_number := "4.2" }

/-- Witness for C7 at the specification's concrete scenario chunk; its
citation evaluates to exactly `Home.pdf §4.2 (Exclusions) p.12`. -/
theorem c7_citation_wellformed_witness :
    scenarioChunk.citationString = "Home.pdf §4.2 (Exclusions) p.12" ∧
    ("§" ++ scenarioChunk.clause_number).data <:+: scenarioChunk.citationString.data ∧
    (∀ x ∈ scenarioChunk.doc_name.data, x ≠ '§') :=
  ⟨by decide, (c7_citation_wellformed scenarioChunk).2.2.1 (by decide), by decide⟩

/-! ## Vector store (src/core/vectorstore.py)

The FAISS index itself and the embedding backend are external
collaborators; the store only ever observes the index through bounds
checks against `self._chunks`, so the index is abstracted to its vector
count (`ntotal`).  The two persisted artifacts (`index.faiss`,
`chunks.json`) are modelled as their parsed contents; a missing file is
`none`. -/

/-- Chunk metadata record as written by `VectorStore.save`
(src/core/vectorstore.py lines 74-85).  `VectorStore.load` reads the
trailing five keys with `dict.get` and a default, so they are `Option`s
here; `save` always writes all of them. -/
structure ChunkMeta where
  text : String
  doc_name : String
  page : Nat
  sectionLabel : Option String
  clause_number : Option String
  heading_path : Option String
  cross_references : Option (List String)
  chunk_id : Option Nat
deriving DecidableEq, Repr

/-- The metadata dict `VectorStore.save` writes for one chunk
(src/core/vectorstore.py lines 75-85). -/
def Chunk.toSavedMeta (c : Chunk) : ChunkMeta :=
  { text := c.text, doc_name := c.doc_name, page := c.page,
    sectionLabel := some c.sectionLabel, clause_number := some c.clause_number,
    heading_path := some c.heading_path, cross_references := some c.cross_references,
    chunk_id := some c.chunk_id }

/-- One chunk reconstructed by `VectorStore.load` from position `i` of the
metadata array (src/core/vectorstore.py lines 105-117): `m.get(key,
default)` with empty-string/empty-list defaults, and `chunk_id` defaulting
to the position. -/
def metaToChunk (i : Nat) (m : ChunkMeta) : Chunk :=
  { text := m.text, doc_name := m.doc_name, page := m.page,
    sectionLabel := m.sectionLabel.getD "", clause_number := m.clause_number.getD "",
    heading_path := m.heading_path.getD "", cross_references := m.cross_references.getD [],
    chunk_id := m.chunk_id.getD i }

/-- `for i, m in enumerate(meta)` in `VectorStore.load`. -/
def loadChunksFrom (i : Nat) : List ChunkMeta → List Chunk
  | [] => []
  | m :: rest => metaToChunk i m :: loadChunksFrom (i + 1) rest

/-- State of a `VectorStore` (src/core/vectorstore.py lines 20-25):
`_index` is `None` until built/loaded (abstracted to its vector count),
`_chunks` the parallel metadata list, `_is_loaded` the readiness flag. -/
structure VectorStore where
  index : Option Nat
  chunks : List Chunk
  isLoaded : Bool
deriving DecidableEq, Repr

/-- A freshly constructed store (`VectorStore.__init__`). -/
def VectorStore.init : VectorStore :=
  { index := none, chunks := [], isLoaded := false }

/-- Error channel for `build_index`.  The specification's taxonomy names
`EmptyCorpusError` for an empty corpus; the error type is present so a
raising implementation could be expressed. -/
inductive VSError where
  | emptyCorpus
deriving DecidableEq, Repr

/-- `VectorStore.build_index` (src/core/vectorstore.py lines 35-58).  On an
empty chunk list the source prints `[WARNING] No chunks to index.` and
plainly returns, leaving the state untouched; otherwise it embeds the
texts (external), builds a flat inner-product index over them (`ntotal =
len(chunks)`), stores the chunk list and marks the store loaded.  No file
is touched. -/
def VectorStore.buildIndex (vs : VectorStore) (chunks : List Chunk) :
    Except VSError VectorStore :=
  if chunks = [] then
    Except.ok vs
  else
    Except.ok { index := some chunks.length, chunks := chunks, isLoaded := true }

/-- `VectorStore.save` (src/core/vectorstore.py lines 60-90): with no index
it prints a warning and writes nothing (`none`); otherwise it writes the
FAISS index and the metadata array of all chunks, in order. -/
def VectorStore.save (vs : VectorStore) : Option (Nat × List ChunkMeta) :=
  match vs.index with
  | none => none
  | some n => some (n, vs.chunks.map Chunk.toSavedMeta)

/-- `VectorStore.load` (src/core/vectorstore.py lines 92-124): returns
`false` leaving the state unchanged when either persisted artifact is
missing; otherwise reconstructs the chunk list from the metadata in order
and marks the store loaded. -/
def VectorStore.load (vs : VectorStore) (files : Option (Nat × List ChunkMeta)) :
    Bool × VectorStore :=
  match files with
  | none => (false, vs)
  | some (n, meta) =>
    (true, { index := some n, chunks := loadChunksFrom 0 meta, isLoaded := true })

/-- `VectorStore.search` (src/core/vectorstore.py lines 126-146).
`faissOut` is the `(score, index)` row pair list the external FAISS index
returns for the query; rows whose index is out of the chunk range are
skipped.  The method never assigns any field, so the returned state is the
input state. -/
def VectorStore.search (vs : VectorStore) (faissOut : List (ℚ × Int)) :
    List (Chunk × ℚ) × VectorStore :=
  if vs.index = none ∨ vs.isLoaded = false then
    ([], vs)
  else
    (faissOut.filterMap (fun (p : ℚ × Int) =>
      if p.2 < 0 then none
      else
        match vs.chunks.get? p.2.toNat with
        | none => none
        | some c => some (c, p.1)), vs)

/-- C1 counterexample: `build_index` on the empty chunk list does *not*
raise — it returns normally (`Except.ok`) with the store unchanged, so no
`EmptyCorpusError` exists on this path. -/
theorem c1_counterexample :
    VectorStore.init.buildIndex [] = Except.ok VectorStore.init ∧
    VectorStore.init.index = none := by
  constructor <;> rfl

/-- C1 (amended): `build_index` called with an empty chunk sequence logs a
warning and returns normally without raising; the store is left unchanged
(no index is built), and a subsequent `save` on the untouched fresh store
writes no files. -/
theorem c1_empty_build_no_raise (vs : VectorStore) :
    vs.buildIndex [] = Except.ok vs ∧ VectorStore.init.save = none := by
  constructor <;> rfl

/-- `load ∘ save` recovers each chunk exactly. -/
lemma loadChunksFrom_map_toSavedMeta (cs : List Chunk) :
    ∀ i, loadChunksFrom i (cs.map Chunk.toSavedMeta) = cs := by
  induction cs with
  | nil => intro i; rfl
  | cons c rest ih =>
    intro i
    simp [loadChunksFrom, metaToChunk, Chunk.toSavedMeta, ih]

/-- C2: index round-trip.  Building an index from a non-empty chunk list
and saving it yields persisted artifacts from which `load` succeeds and
reconstructs exactly the original chunk sequence — same order, same field
values, same chunk ids. -/
theorem c2_index_round_trip (cs : List Chunk) (h : cs ≠ []) (vs : VectorStore)
    (hb : VectorStore.init.buildIndex cs = Except.ok vs) :
    (VectorStore.init.load vs.save).1 = true ∧
    (VectorStore.init.load vs.save).2.chunks = cs := by
  unfold VectorStore.buildIndex at hb
  rw [if_neg h] at hb
  cases hb
  exact ⟨rfl, loadChunksFrom_map_toSavedMeta cs 0⟩

/-- Witness for C2 at a concrete one-chunk corpus. -/
theorem c2_index_round_trip_witness :
    (VectorStore.init.load
      (VectorStore.mk (some 1) [scenarioChunk] true).save).2.chunks = [scenarioChunk] :=
  (c2_index_round_trip [scenarioChunk] (by decide)
    (VectorStore.mk (some 1) [scenarioChunk] true) rfl).2

/-- C9: searching a store that has never been built or loaded returns the
empty result list (after a logged error) for every FAISS output and leaves
the store state unchanged. -/
theorem c9_search_not_loaded (vs : VectorStore)
    (h : vs.index = none ∨ vs.isLoaded = false) (faissOut : List (ℚ × Int)) :
    vs.search faissOut = ([], vs) := by
  unfold VectorStore.search
  rw [if_pos h]

/-- Witness for C9 on the freshly constructed store. -/
theorem c9_search_not_loaded_witness :
    VectorStore.init.search [((1 : ℚ) / 2, (0 : Int))] = ([], VectorStore.init) :=
  c9_search_not_loaded VectorStore.init (Or.inl rfl) [((1 : ℚ) / 2, (0 : Int))]

/-! ## Sub-chunking (src/core/chunking.py lines 105-197) -/

/-- `_estimate_tokens` (src/core/chunking.py lines 105-107): roughly one
token per four characters, by integer division. -/
def estimateTokens (s : String) : Nat := pyLen s / 4

/-- `re.split(r"(?<=[.!?])\s+", text)`: walk the characters, and split
exactly where a whitespace follows a sentence-ending character, consuming
the maximal whitespace run (tracked by the `skipping` flag so that the
recursion is structural).  `cur` holds the current piece reversed, so its
head is the character that precedes the one under inspection; while
`skipping`, `cur` is empty. -/
def splitSentencesGo : Bool → List Char → List Char → List String
  | _, [], cur => [String.mk cur.reverse]
  | skipping, c :: rest, cur =>
    if skipping then
      if isWS c then splitSentencesGo true rest cur
      else splitSentencesGo false rest (c :: cur)
    else if isWS c && (match cur with
        | p :: _ => p == '.' || p == '!' || p == '?'
        | [] => false) then
      String.mk cur.reverse :: splitSentencesGo true rest []
    else
      splitSentencesGo false rest (c :: cur)

/-- Sentence splitting of `_sub_chunk_text` (src/core/chunking.py line 160). -/
def splitSentences (s : String) : List String := splitSentencesGo false s.data []

/-- The overlap seed of `_sub_chunk_text` (src/core/chunking.py lines
173-180): walk the just-flushed sentences backwards (the argument is the
reversed chunk), accumulating token estimates; stop — without keeping the
tipping sentence — once `chunk_overlap` is reached, and return the kept
sentences in their original order. -/
def overlapCollect (co : Nat) : List String → Nat → List String
  | [], _ => []
  | s :: rest, ot =>
    let ot' := ot + estimateTokens s
    if co ≤ ot' then [] else overlapCollect co rest ot' ++ [s]

/-- The sentence loop of `_sub_chunk_text` (src/core/chunking.py lines
165-186), returning the flushed chunks and the pending sentence buffer.
A flush appends the joined buffer only when it meets `min_chunk_size`
(otherwise it is discarded), then seeds the buffer with the overlap
sentences. -/
def subChunkGo (cs co ms : Nat) :
    List String → List String → List String → Nat → List String × List String
  | [], chunks, cur, _ => (chunks, cur)
  | sent :: rest, chunks, cur, curTok =>
    let st := estimateTokens sent
    if cs < curTok + st ∧ cur ≠ [] then
      let chunkText := pyJoin " " cur
      let chunks' := if ms ≤ estimateTokens chunkText then chunks ++ [chunkText] else chunks
      let osents := overlapCollect co cur.reverse 0
      subChunkGo cs co ms rest chunks' (osents ++ [sent])
        ((osents.map estimateTokens).sum + st)
    else
      subChunkGo cs co ms rest chunks (cur ++ [sent]) (curTok + st)

/-- Python `chunks[-1] += s`. -/
def appendToLast : List String → String → List String
  | [], _ => []
  | [x], s => [x ++ s]
  | x :: y :: rest, s => x :: appendToLast (y :: rest) s

/-- `_sub_chunk_text` (src/core/chunking.py lines 146-197): return the
whole text as a single chunk when it fits `chunk_size` (even below
`min_chunk_size`, provided it is not blank); otherwise run the sentence
loop and handle the trailing buffer — emit it when it meets
`min_chunk_size` or when nothing was flushed yet, else append it to the
last flushed chunk. -/
def subChunkText (text : String) (cs co ms : Nat) : List String :=
  if estimateTokens text ≤ cs then
    if ms ≤ estimateTokens text then [text]
    else if pyStrip text ≠ "" then [text]
    else []
  else
    let res := subChunkGo cs co ms (splitSentences text) [] [] 0
    if res.2 ≠ [] then
      let chunkText := pyJoin " " res.2
      if ms ≤ estimateTokens chunkText ∨ res.1 = [] then res.1 ++ [chunkText]
      else appendToLast res.1 (" " ++ chunkText)
    else res.1

/-- Longer text can only raise the token estimate. -/
lemma estimateTokens_le_append (x s : String) :
    estimateTokens x ≤ estimateTokens (x ++ s) := by
  unfold estimateTokens pyLen
  rw [String.data_append, List.length_append]
  exact Nat.div_le_div_right (Nat.le_add_right _ _)

lemma appendToLast_floor (ms : Nat) (s : String) :
    ∀ l : List String, (∀ c ∈ l, ms ≤ estimateTokens c) →
    ∀ c ∈ appendToLast l s, ms ≤ estimateTokens c := by
  intro l
  induction l with
  | nil => intro _ c hc; simp [appendToLast] at hc
  | cons x rest ih =>
    intro h c hc
    cases rest with
    | nil =>
      simp only [appendToLast, List.mem_singleton] at hc
      subst hc
      exact le_trans (h x (by simp)) (estimateTokens_le_append x s)
    | cons y t =>
      simp only [appendToLast, List.mem_cons] at hc
      rcases hc with hc | hc
      · subst hc; exact h c (by simp)
      · exact ih (fun d hd => h d (List.mem_cons_of_mem _ hd)) c hc

lemma subChunkGo_floor (cs co ms : Nat) :
    ∀ (sents chunks cur : List String) (curTok : Nat),
      (∀ c ∈ chunks, ms ≤ estimateTokens c) →
      ∀ c ∈ (subChunkGo cs co ms sents chunks cur curTok).1, ms ≤ estimateTokens c := by
  intro sents
  induction sents with
  | nil => intro chunks cur curTok h c hc; exact h c hc
  | cons sent rest ih =>
    intro chunks cur curTok h c hc
    simp only [subChunkGo] at hc
    split at hc
    · refine ih _ _ _ ?_ c hc
      intro d hd
      split at hd
      · rcases List.mem_append.mp hd with hd | hd
        · exact h d hd
        · rw [List.mem_singleton.mp hd]; assumption
      · exact h d hd
    · exact ih _ _ _ h c hc

/-- A three-sentence text whose middle sentence is tiny: input for the C3
analysis. -/
def smallFragmentText : String :=
  "Aaaa aaaa aaaa aaaa aaaa aaaa aaaa aaaa aas." ++ " " ++ "Bb." ++ " " ++
    "Cccc cccc cccc cccc cccc cccc cccc cccc ccs."

/-- C3 counterexample: with configuration `chunk_size = 10`,
`chunk_overlap = 0`, `min_chunk_size = 5`, the middle sentence `Bb.` of
the concrete text falls below `min_chunk_size` at its flush, has a flushed
predecessor chunk in the output, and yet is silently discarded: it is
neither merged into the preceding chunk nor present in any emitted chunk. -/
theorem c3_counterexample :
    subChunkText smallFragmentText 10 0 5 =
      ["Aaaa aaaa aaaa aaaa aaaa aaaa aaaa aaaa aas.",
       "Cccc cccc cccc cccc cccc cccc cccc cccc ccs."] ∧
    estimateTokens "Bb." < 5 ∧
    pyIn "Bb" smallFragmentText = true ∧
    (subChunkText smallFragmentText 10 0 5).all (fun x => pyIn "Bb" x = false) := by
  refine ⟨by decide, by decide, by decide, by decide⟩

/-- C3 (amended): the token floor holds for every emitted chunk whenever
the output has at least two chunks — mid-stream flushes below
`min_chunk_size` are dropped (not emitted), and a trailing fragment below
the floor is merged into the last flushed chunk; only a lone single-chunk
output may fall below `min_chunk_size`. -/
theorem c3_token_floor (text : String) (cs co ms : Nat)
    (h : 2 ≤ (subChunkText text cs co ms).length) :
    ∀ c ∈ subChunkText text cs co ms, ms ≤ estimateTokens c := by
  intro c hc
  unfold subChunkText at h hc
  by_cases h1 : estimateTokens text ≤ cs
  · rw [if_pos h1] at h
    split_ifs at h <;> simp at h
  · rw [if_neg h1] at h hc
    by_cases h2 : (subChunkGo cs co ms (splitSentences text) [] [] 0).2 ≠ []
    · rw [if_pos h2] at h hc
      simp only at h hc
      split_ifs at h hc with h3
      · rcases List.mem_append.mp hc with hc | hc
        · exact subChunkGo_floor cs co ms _ _ _ _ (by simp) c hc
        · rw [List.mem_singleton.mp hc]
          rcases h3 with h3 | h3
          · exact h3
          · rw [h3] at h
            simp at h
      · exact appendToLast_floor ms _ _
          (subChunkGo_floor cs co ms _ _ _ _ (by simp)) c hc
    · rw [if_neg h2] at hc
      exact subChunkGo_floor cs co ms _ _ _ _ (by simp) c hc

/-- Witness for C3 (amended) at the counterexample's concrete input: the
output has two chunks and the first meets the floor. -/
theorem c3_token_floor_witness :
    2 ≤ (subChunkText smallFragmentText 10 0 5).length ∧
    5 ≤ estimateTokens "Aaaa aaaa aaaa aaaa aaaa aaaa aaaa aaaa aas." :=
  ⟨by decide,
   c3_token_floor smallFragmentText 10 0 5 (by decide)
     "Aaaa aaaa aaaa aaaa aaaa aaaa aaaa aaaa aas." (by decide)⟩

/-! ## Retriever (src/core/retriever.py)

The query embedding and the FAISS search are external; `retrieve` is
modelled as a function of the `(chunk, score)` list the store's `search`
returns, which it filters by the similarity threshold and deduplicates. -/

/-- The word set of a text for `Retriever._text_overlap`
(src/core/retriever.py lines 77-78): `set(text.lower().split())`. -/
def wordSet (s : String) : Finset String := (pySplitWs (pyLower s)).toFinset

/-- `Retriever._text_overlap` (src/core/retriever.py lines 74-83):
word-level Jaccard overlap of two texts; `0.0` when either word set is
empty. -/
def textOverlap (a b : String) : ℚ :=
  let wa := wordSet a
  let wb := wordSet b
  if wa = ∅ ∨ wb = ∅ then 0
  else mkRat ((wa ∩ wb).card : Int) ((wa ∪ wb).card)

/-- The walk of `Retriever._deduplicate` (src/core/retriever.py lines
56-72): keep a result unless its text overlaps a previously kept text by
more than `0.7`; `seen` collects the kept texts in order. -/
def dedupGo : List (Chunk × ℚ) → List String → List (Chunk × ℚ)
  | [], _ => []
  | (c, s) :: rest, seen =>
    if seen.any (fun t => mkRat 7 10 < textOverlap c.text t) then
      dedupGo rest seen
    else
      (c, s) :: dedupGo rest (seen ++ [c.text])

/-- `Retriever._deduplicate` (src/core/retriever.py lines 49-72): lists of
length at most one pass through unchanged. -/
def deduplicate (results : List (Chunk × ℚ)) : List (Chunk × ℚ) :=
  if results.length ≤ 1 then results else dedupGo results []

/-- `Retriever.retrieve` (src/core/retriever.py lines 30-47) downstream of
the external embedding and FAISS search: filter the search results by the
similarity threshold, then deduplicate. -/
def retrieveModel (searchResults : List (Chunk × ℚ)) (threshold : ℚ) :
    List (Chunk × ℚ) :=
  deduplicate (searchResults.filter (fun p => threshold ≤ p.2))

lemma dedupGo_subset (rest : List (Chunk × ℚ)) :
    ∀ seen p, p ∈ dedupGo rest seen → p ∈ rest := by
  induction rest with
  | nil => intro seen p hp; simp [dedupGo] at hp
  | cons q t ih =>
    intro seen p hp
    obtain ⟨c, s⟩ := q
    simp only [dedupGo] at hp
    split at hp
    · exact List.mem_cons_of_mem _ (ih _ p hp)
    · rcases List.mem_cons.mp hp with hp | hp
      · rw [hp]; simp
      · exact List.mem_cons_of_mem _ (ih _ p hp)

/-- C4: every `(chunk, score)` pair returned by `retrieve` has
`score ≥ similarity_threshold` — sub-threshold search hits are filtered
out and deduplication only ever removes entries. -/
theorem c4_threshold_filter (searchResults : List (Chunk × ℚ)) (threshold : ℚ)
    (c : Chunk) (s : ℚ) (h : (c, s) ∈ retrieveModel searchResults threshold) :
    threshold ≤ s := by
  unfold retrieveModel deduplicate at h
  split_ifs at h with hlen
  · exact of_decide_eq_true (List.mem_filter.mp h).2
  · exact of_decide_eq_true (List.mem_filter.mp (dedupGo_subset _ _ _ h)).2

/-- Witness for C4 at a concrete search result list. -/
theorem c4_threshold_filter_witness : (mkRat 1 4 : ℚ) ≤ 1 :=
  c4_threshold_filter [(scenarioChunk, 1)] (mkRat 1 4) scenarioChunk 1 (by decide)

/-- Jaccard overlap is symmetric. -/
lemma textOverlap_comm (a b : String) : textOverlap a b = textOverlap b a := by
  unfold textOverlap
  simp only [Finset.inter_comm, Finset.union_comm]
  by_cases h1 : wordSet a = ∅ <;> by_cases h2 : wordSet b = ∅ <;>
    simp [h1, h2, Finset.inter_comm, Finset.union_comm]

lemma dedupGo_not_overlap_seen (rest : List (Chunk × ℚ)) :
    ∀ seen, ∀ p ∈ dedupGo rest seen, ∀ t ∈ seen, textOverlap p.1.text t ≤ mkRat 7 10 := by
  induction rest with
  | nil => intro seen p hp; simp [dedupGo] at hp
  | cons q tl ih =>
    intro seen p hp t ht
    obtain ⟨c, s⟩ := q
    simp only [dedupGo] at hp
    by_cases hcond : (seen.any (fun t => mkRat 7 10 < textOverlap c.text t)) = true
    · rw [if_pos hcond] at hp
      exact ih _ p hp t ht
    · rw [if_neg hcond] at hp
      rcases List.mem_cons.mp hp with hp | hp
      · rw [hp]
        simp only [List.any_eq_true, decide_eq_true_eq] at hcond
        push_neg at hcond
        exact hcond t ht
      · exact ih _ p hp t (List.mem_append_left _ ht)

lemma dedupGo_pairwise (rest : List (Chunk × ℚ)) :
    ∀ seen, (dedupGo rest seen).Pairwise
      (fun p q => textOverlap q.1.text p.1.text ≤ mkRat 7 10) := by
  induction rest with
  | nil => intro seen; simp [dedupGo]
  | cons q tl ih =>
    intro seen
    obtain ⟨c, s⟩ := q
    simp only [dedupGo]
    split
    · exact ih _
    · refine List.Pairwise.cons ?_ (ih _)
      intro p hp
      exact dedupGo_not_overlap_seen tl _ p hp c.text (by simp)

/-- C5: no two chunks in a `retrieve` result overlap by more than `0.7`
word-level Jaccard (in either orientation, since Jaccard is symmetric),
and the result is a subsequence of the threshold-filtered, score-ordered
search list — the deduplication is greedy and order-preserving, so the
earlier (higher-scored) member of a near-duplicate group is kept. -/
theorem c5_deduplication (searchResults : List (Chunk × ℚ)) (threshold : ℚ) :
    (retrieveModel searchResults threshold).Pairwise
      (fun p q => textOverlap p.1.text q.1.text ≤ mkRat 7 10 ∧
        textOverlap q.1.text p.1.text ≤ mkRat 7 10) ∧
    (retrieveModel searchResults threshold).Sublist
      (searchResults.filter (fun p => threshold ≤ p.2)) := by
  constructor
  · unfold retrieveModel deduplicate
    split_ifs with hlen
    · generalize hg : searchResults.filter (fun p => threshold ≤ p.2) = l at hlen ⊢
      match l, hlen with
      | [], _ => simp
      | [a], _ => simp
    · refine (dedupGo_pairwise _ []).imp ?_
      intro p q h
      exact ⟨by rw [textOverlap_comm]; exact h, h⟩
  · unfold retrieveModel deduplicate
    split_ifs with hlen
    · exact List.Sublist.refl _
    · generalize (searchResults.filter (fun p => threshold ≤ p.2)) = l
      suffices h : ∀ seen, (dedupGo l seen).Sublist l by exact h []
      induction l with
      | nil => intro seen; simp [dedupGo]
      | cons q tl ih =>
        intro seen
        obtain ⟨c, s⟩ := q
        simp only [dedupGo]
        split
        · exact (ih _).cons _
        · exact (ih _).cons₂ _

/-! ## Rule-based answer composer follow-ups (src/core/llm_backend.py)

`MockLLMBackend.generate` returns a dict with an `answer` and a
`follow_ups` list; every claim here concerns the `follow_ups` component,
which is modelled in full.  `generate` receives a prompt and recovers the
question from it with `_extract_question`; the embedding takes the
recovered question directly (the specification's contract is
`generate(question, ranked_results)`), and `question_lower` is its
lowercase form as in the source. -/

/-- Python `a or b` on strings: the first non-empty one. -/
def pyOrStr (a b : String) : String := if a ≠ "" then a else b

/-- The stop-word set of `MockLLMBackend._get_keywords`
(src/core/llm_backend.py lines 201-209). -/
def stopWords : List String :=
  ["is", "the", "a", "an", "and", "or", "of", "to", "in", "for",
   "on", "with", "by", "at", "from", "as", "it", "that", "this",
   "are", "was", "were", "be", "been", "being", "have", "has",
   "had", "do", "does", "did", "will", "would", "could", "should",
   "may", "might", "shall", "can", "what", "how", "which", "who",
   "when", "where", "why", "under", "my", "your", "their", "its",
   "there", "here", "about", "than", "then", "also", "just"]

/-- `MockLLMBackend._get_keywords` (src/core/llm_backend.py lines
198-211): the word set of the lowercased text minus the stop words. -/
def getKeywords (text : String) : Finset String :=
  (findWords (pyLower text)).toFinset \ stopWords.toFinset

/-- `MockLLMBackend._extract_topic` (src/core/llm_backend.py lines
272-284): last segment of the heading path (falling back to the section),
stripped of whitespace and quotes; empty when it is short or already part
of the question. -/
def extractTopic (c : Chunk) (questionLower : String) : String :=
  let heading := pyOrStr c.heading_path (pyOrStr c.sectionLabel "")
  let parts := (splitOnChar '>' heading.data).map String.mk
  let topic := pyStripChars ['\x27'] (pyStripChars ['\x22'] (pyStrip (parts.getLast?.getD "")))
  let topicLower := pyLower topic
  if (!pyIn topicLower questionLower) ∧ 2 < pyLen topic then topic else ""

/-- The topic template table of `MockLLMBackend._generate_follow_ups`
(src/core/llm_backend.py lines 223-232), in the literal (insertion) order
of the Python dict; `template.format(topic=topic)` is the function
application. -/
def topicTemplates : List (String × (String → String)) :=
  [("exclusion", fun t => "What specific exclusions apply to " ++ t ++ "?"),
   ("cover", fun t => "What are the limits for " ++ t ++ " coverage?"),
   ("definition", fun t => "How does the policy define \x27" ++ t ++ "\x27?"),
   ("claim", fun t => "How do I make a claim for " ++ t ++ "?"),
   ("condition", fun t => "What conditions must be met for " ++ t ++ "?"),
   ("excess", fun t => "What excess applies to " ++ t ++ "?"),
   ("limit", fun t => "What are the coverage limits for " ++ t ++ "?"),
   ("waiting", fun t => "Is there a waiting period for " ++ t ++ "?")]

/-- The chunk loop of `_generate_follow_ups` (src/core/llm_backend.py
lines 234-249): for each result chunk, find the first template whose key
occurs in the chunk's section (or heading path) and is not yet used;
instantiate it when a fresh topic noun is extracted; stop once three
follow-ups exist. -/
def topicLoop (questionLower : String) :
    List (Chunk × ℚ) → List String → List String → List String
  | [], fu, _ => fu
  | (c, _) :: rest, fu, seen =>
    let sec := pyLower (pyOrStr c.sectionLabel (pyOrStr c.heading_path ""))
    match topicTemplates.find? (fun kt => pyIn kt.1 sec && !(seen.contains kt.1)) with
    | some (k, tmpl) =>
      let topic := extractTopic c questionLower
      let st :=
        if topic ≠ "" ∧ ¬ topic ∈ seen then (fu ++ [tmpl topic], seen ++ [k, topic])
        else (fu, seen)
      if 3 ≤ st.1.length then st.1 else topicLoop questionLower rest st.1 st.2
    | none =>
      if 3 ≤ fu.length then fu else topicLoop questionLower rest fu seen

/-- The generic fallback suggestions of `_generate_follow_ups`
(src/core/llm_backend.py lines 252-259). -/
def genericFollowUps : List String :=
  ["What items are excluded from coverage?",
   "What is the claims process?",
   "What are the policy\x27s general conditions?",
   "How is the excess calculated?",
   "What additional optional covers are available?",
   "What are my obligations under this policy?"]

/-- The padding loop of `_generate_follow_ups` (src/core/llm_backend.py
lines 261-268): append each generic suggestion whose keyword overlap with
the question is below two words, until three follow-ups exist. -/
def padLoop (questionWords : Finset String) : List String → List String → List String
  | [], fu => fu
  | q :: rest, fu =>
    if 3 ≤ fu.length then fu
    else if ((getKeywords (pyLower q)) ∩ questionWords).card < 2 then
      padLoop questionWords rest (fu ++ [q])
    else padLoop questionWords rest fu

/-- `MockLLMBackend._generate_follow_ups` (src/core/llm_backend.py lines
213-270): topic-derived follow-ups, padded with non-overlapping generic
ones, truncated to three. -/
def generateFollowUps (ctx : List (Chunk × ℚ)) (questionLower : String) : List String :=
  (padLoop (getKeywords questionLower) genericFollowUps
    (topicLoop questionLower ctx [] [])).take 3

/-- The `follow_ups` component of `MockLLMBackend.generate`
(src/core/llm_backend.py lines 42-74): the fixed three generic suggestions
when the ranked context is empty, otherwise `_generate_follow_ups` on the
lowercased question — identically in the low-confidence and grounded
branches. -/
def mockGenerateFollowUps (question : String) (ctx : List (Chunk × ℚ)) : List String :=
  if ctx = [] then
    ["What does this policy cover?",
     "What are the general exclusions?",
     "How do I make a claim?"]
  else generateFollowUps ctx (pyLower question)

/-- A result chunk with no section and no heading path. -/
def plainChunk : Chunk := { text := "x", doc_name := "d.pdf", page := 1 }

/-- C8 counterexample: for a non-empty ranked context whose chunk carries
no section or heading, and a question that overlaps every generic
suggestion by at least two keywords, `generate` returns zero follow-ups,
not three. -/
theorem c8_counterexample :
    mockGenerateFollowUps
      ("excluded items claims process policy general conditions " ++
        "excess calculated optional covers obligations")
      [(plainChunk, 1)] = [] ∧
    [(plainChunk, (1 : ℚ))] ≠ [] := by
  constructor
  · decide
  · decide

/-- C8 (amended): `generate` returns *at most* three follow-up
suggestions; with an empty ranked context it returns exactly the three
fixed generic ones, and otherwise it returns the topic-derived follow-ups
padded with non-overlapping generics and truncated to three — which can
fall short of three when every remaining generic overlaps the question by
two or more keywords. -/
theorem c8_follow_up_count (question : String) (ctx : List (Chunk × ℚ)) :
    (mockGenerateFollowUps question ctx).length ≤ 3 ∧
    (ctx = [] → mockGenerateFollowUps question ctx =
      ["What does this policy cover?",
       "What are the general exclusions?",
       "How do I make a claim?"]) := by
  constructor
  · unfold mockGenerateFollowUps
    split_ifs with h
    · decide
    · unfold generateFollowUps
      exact List.length_take_le 3 _
  · intro h
    rw [h]
    rfl

/-- Witness for C8 (amended) at the empty context. -/
theorem c8_follow_up_count_witness :
    (mockGenerateFollowUps "hi" []).length ≤ 3 ∧
    mockGenerateFollowUps "hi" [] =
      ["What does this policy cover?",
       "What are the general exclusions?",
       "How do I make a claim?"] :=
  ⟨(c8_follow_up_count "hi" []).1, (c8_follow_up_count "hi" []).2 rfl⟩

/-! ## Pipeline conversational short-circuit (src/core/pipeline.py)

`PolicyQAPipeline.ask` first runs `_detect_conversational` and returns its
payload without any retrieval when it matches.  The retriever and the LLM
backend are injected parameters of the model (`retrieveFn`, `generateFn`)
so that the bypass is expressed as independence from them; the components
of the non-conversational branch (`build_context`, `format_citations`,
source details, best score) are embedded below. -/

/-- One entry of the `sources` list built by `ask`
(src/core/pipeline.py lines 272-282).  `round(score, 4)` is a float
presentation detail kept as the exact score here. -/
structure SourceDetail where
  doc_name : String
  sectionLabel : String
  clause : String
  page : Nat
  heading_path : String
  score : ℚ
  snippet : String
deriving DecidableEq, Repr

/-- The payload `ask` returns (src/core/pipeline.py lines 287-294 and the
conversational dicts of lines 160-237). -/
structure AnswerPayload where
  question : String
  answer : String
  citations : String
  sources : List SourceDetail
  confidence : ℚ
  follow_ups : List String
deriving DecidableEq, Repr

/-- `Retriever.build_context` (src/core/retriever.py lines 105-122). -/
def buildContext (results : List (Chunk × ℚ)) : String :=
  if results = [] then ""
  else
    pyJoin "\n\n---\n\n"
      ((List.enumFrom 1 results).map (fun ci =>
        let c := ci.2.1
        let header := "[Source " ++ toString ci.1 ++ ": " ++ c.doc_name
        let header := if c.clause_number ≠ "" then header ++ " §" ++ c.clause_number else header
        let header := if c.sectionLabel ≠ "" then header ++ " (" ++ c.sectionLabel ++ ")" else header
        let header := header ++ ", p." ++ toString c.page
        header ++ "]" ++ "\n" ++ c.text))

/-- `Retriever.format_citations` (src/core/retriever.py lines 85-103):
"Sources: " plus the first-seen deduplicated citation strings. -/
def formatCitations (results : List (Chunk × ℚ)) : String :=
  if results = [] then ""
  else
    let cites := results.foldl (fun acc p =>
      let cite := p.1.citationString
      if acc.contains cite then acc else acc ++ [cite]) []
    "Sources: " ++ pyJoin "; " cites

/-- `Retriever.get_best_score` (src/core/retriever.py lines 124-128). -/
def getBestScore (results : List (Chunk × ℚ)) : ℚ :=
  match results with
  | [] => 0
  | p :: rest => (rest.map (fun q => q.2)).foldl max p.2

/-- The greeting pattern set (src/core/pipeline.py lines 133-136). -/
def greetingPatterns : List String :=
  ["hi", "hello", "hey", "good morning", "good afternoon", "good evening",
   "howdy", "hola", "sup", "yo", "hii", "hiii", "hihi"]

/-- The identity pattern set (src/core/pipeline.py lines 137-141). -/
def identityPatterns : List String :=
  ["who are you", "who are u", "what are you", "what are u",
   "what is this", "what do you do", "introduce yourself",
   "what can you do", "what can u do"]

/-- The thanks pattern set (src/core/pipeline.py lines 142-144). -/
def thanksPatterns : List String :=
  ["thanks", "thank you", "thank u", "thx", "ty", "cheers"]

/-- The help pattern set (src/core/pipeline.py lines 145-147). -/
def helpPatterns : List String :=
  ["help", "help me", "what can i ask", "how to use"]

/-- `question.lower().strip().rstrip("?!.")` (src/core/pipeline.py line 154). -/
def normalizeQuestion (question : String) : String :=
  pyRstrip ['?', '!', '.'] (pyStrip (pyLower question))

/-- The canned greeting payload (src/core/pipeline.py lines 160-180);
`doc_count` is the number of distinct indexed documents. -/
def greetingPayload (question : String) (docCount : Nat) : AnswerPayload :=
  { question := question,
    answer :=
      "Hello! I\x27m your **Policy Q&A Assistant**. I have **" ++ toString docCount ++
        " policy document" ++ (if docCount ≠ 1 then "s" else "") ++
        "** loaded and ready to search.\n\n" ++
        "Ask me anything about your insurance policies — for example:\n" ++
        "- \x22Is wear-and-tear covered?\x22\n" ++
        "- \x22What is the excess for water damage?\x22\n" ++
        "- \x22What definitions apply to Insured Person?\x22\n\n" ++
        "I\x27ll find the relevant sections and cite the exact source.",
    citations := "",
    sources := [],
    confidence := 1,
    follow_ups :=
      ["What does this policy cover?",
       "What are the general exclusions?",
       "How do I make a claim?"] }

/-- The canned identity payload (src/core/pipeline.py lines 183-202). -/
def identityPayload (question : String) : AnswerPayload :=
  { question := question,
    answer :=
      "I\x27m a **Policy Q&A Assistant** — an AI-powered chatbot that answers " ++
        "questions about insurance policy documents.\n\n" ++
        "I search through the loaded policy PDFs and give you **grounded answers " ++
        "with clause-level citations** so you know exactly where the information " ++
        "comes from.\n\n" ++
        "Just type your question about any policy topic!",
    citations := "",
    sources := [],
    confidence := 1,
    follow_ups :=
      ["What documents are loaded?",
       "What items are excluded from coverage?",
       "What is the claims process?"] }

/-- The canned thanks payload (src/core/pipeline.py lines 205-213). -/
def thanksPayload (question : String) : AnswerPayload :=
  { question := question,
    answer := "You\x27re welcome! Feel free to ask more questions about your policy anytime.",
    citations := "",
    sources := [],
    confidence := 1,
    follow_ups := [] }

/-- The canned help payload (src/core/pipeline.py lines 216-237). -/
def helpPayload (question : String) : AnswerPayload :=
  { question := question,
    answer :=
      "Here\x27s how to get the best results:\n\n" ++
        "**Ask specific questions** about your policy, such as:\n" ++
        "- Coverage: \x22What does the contents insurance cover?\x22\n" ++
        "- Exclusions: \x22Is flood damage excluded?\x22\n" ++
        "- Definitions: \x22How is \x27Insured Event\x27 defined?\x22\n" ++
        "- Claims: \x22How do I lodge a claim?\x22\n" ++
        "- Conditions: \x22What are my obligations under the policy?\x22\n\n" ++
        "I\x27ll search the policy documents and provide answers with exact citations.",
    citations := "",
    sources := [],
    confidence := 1,
    follow_ups :=
      ["What does this policy cover?",
       "What are the general exclusions?",
       "What is the excess amount?"] }

/-- `PolicyQAPipeline._detect_conversational` (src/core/pipeline.py lines
149-239): normalize the question (the source binds it once as `q`) and
return the canned payload of the first matching pattern family, greeting
prefixes included; `none` otherwise.  `docNames` is the store's distinct
document name list. -/
def detectConversational (question : String) (docNames : List String) :
    Option AnswerPayload :=
  if greetingPatterns.contains (normalizeQuestion question) ||
      (["hi ", "hey ", "hello "].any
        (fun g => pyStartsWith (normalizeQuestion question) g)) then
    some (greetingPayload question docNames.length)
  else if identityPatterns.contains (normalizeQuestion question) then
    some (identityPayload question)
  else if thanksPatterns.contains (normalizeQuestion question) then
    some (thanksPayload question)
  else if helpPatterns.contains (normalizeQuestion question) then
    some (helpPayload question)
  else
    none

lemma detect_greeting (question : String) (docNames : List String)
    (h : (greetingPatterns.contains (normalizeQuestion question) ||
      (["hi ", "hey ", "hello "].any
        (fun g => pyStartsWith (normalizeQuestion question) g))) = true) :
    detectConversational question docNames =
      some (greetingPayload question docNames.length) := by
  unfold detectConversational
  rw [if_pos h]

lemma detect_identity (question : String) (docNames : List String)
    (h1 : (greetingPatterns.contains (normalizeQuestion question) ||
      (["hi ", "hey ", "hello "].any
        (fun g => pyStartsWith (normalizeQuestion question) g))) = false)
    (h2 : identityPatterns.contains (normalizeQuestion question) = true) :
    detectConversational question docNames = some (identityPayload question) := by
  unfold detectConversational
  rw [if_neg (by simp only [h1]; decide), if_pos h2]

lemma detect_thanks (question : String) (docNames : List String)
    (h1 : (greetingPatterns.contains (normalizeQuestion question) ||
      (["hi ", "hey ", "hello "].any
        (fun g => pyStartsWith (normalizeQuestion question) g))) = false)
    (h2 : identityPatterns.contains (normalizeQuestion question) = false)
    (h3 : thanksPatterns.contains (normalizeQuestion question) = true) :
    detectConversational question docNames = some (thanksPayload question) := by
  unfold detectConversational
  rw [if_neg (by simp only [h1]; decide), if_neg (by simp only [h2]; decide), if_pos h3]

lemma detect_help (question : String) (docNames : List String)
    (h1 : (greetingPatterns.contains (normalizeQuestion question) ||
      (["hi ", "hey ", "hello "].any
        (fun g => pyStartsWith (normalizeQuestion question) g))) = false)
    (h2 : identityPatterns.contains (normalizeQuestion question) = false)
    (h3 : thanksPatterns.contains (normalizeQuestion question) = false)
    (h4 : helpPatterns.contains (normalizeQuestion question) = true) :
    detectConversational question docNames = some (helpPayload question) := by
  unfold detectConversational
  rw [if_neg (by simp only [h1]; decide), if_neg (by simp only [h2]; decide), if_neg (by simp only [h3]; decide), if_pos h4]

/-- `PolicyQAPipeline.ask` (src/core/pipeline.py lines 241-294) on an
initialized pipeline.  The retriever (`retrieveFn`, embedding plus store
search plus threshold filter plus dedup) and the answer backend
(`generateFn`, returning the answer text and follow-ups for a prompt and
ranked results) are the injected collaborators. -/
def ask (retrieveFn : String → List (Chunk × ℚ))
    (generateFn : String → List (Chunk × ℚ) → String × List String)
    (buildPrompt : String → String → String)
    (docNames : List String) (question : String) : AnswerPayload :=
  match detectConversational question docNames with
  | some payload => payload
  | none =>
    let results := retrieveFn question
    let context := buildContext results
    let prompt := buildPrompt question context
    let gen := generateFn prompt results
    { question := question,
      answer := gen.1,
      citations := formatCitations results,
      sources := results.map (fun p =>
        { doc_name := p.1.doc_name, sectionLabel := p.1.sectionLabel,
          clause := p.1.clause_number, page := p.1.page,
          heading_path := p.1.heading_path, score := p.2,
          snippet := pyTake 200 p.1.text }),
      confidence := getBestScore results,
      follow_ups := gen.2 }

/-- C10: when the normalized question matches one of the fixed
conversational pattern families, `ask` returns the canned conversational
payload — confidence `1.0`, empty citations, empty sources — and the
result is the same for every retriever and every answer backend: the
question is never embedded and the index is never searched. -/
theorem c10_conversational_bypass (question : String) (docNames : List String)
    (h : normalizeQuestion question ∈ greetingPatterns ∨
         normalizeQuestion question ∈ identityPatterns ∨
         normalizeQuestion question ∈ thanksPatterns ∨
         normalizeQuestion question ∈ helpPatterns) :
    ∃ payload,
      detectConversational question docNames = some payload ∧
      payload.confidence = 1 ∧ payload.citations = "" ∧ payload.sources = [] ∧
      ∀ retrieveFn generateFn buildPrompt,
        ask retrieveFn generateFn buildPrompt docNames question = payload := by
  have hsome : ∃ payload,
      detectConversational question docNames = some payload ∧
      payload.confidence = 1 ∧ payload.citations = "" ∧ payload.sources = [] := by
    rcases h with h | h | h | h
    · refine ⟨greetingPayload question docNames.length,
        detect_greeting question docNames ?_, rfl, rfl, rfl⟩
      simp only [greetingPatterns, List.mem_cons, List.not_mem_nil, or_false] at h
      rcases h with h | h | h | h | h | h | h | h | h | h | h | h | h <;>
        rw [h] <;> decide
    · refine ⟨identityPayload question,
        detect_identity question docNames ?_ ?_, rfl, rfl, rfl⟩ <;>
      · simp only [identityPatterns, List.mem_cons, List.not_mem_nil, or_false] at h
        rcases h with h | h | h | h | h | h | h | h | h <;> rw [h] <;> decide
    · refine ⟨thanksPayload question,
        detect_thanks question docNames ?_ ?_ ?_, rfl, rfl, rfl⟩ <;>
      · simp only [thanksPatterns, List.mem_cons, List.not_mem_nil, or_false] at h
        rcases h with h | h | h | h | h | h <;> rw [h] <;> decide
    · refine ⟨helpPayload question,
        detect_help question docNames ?_ ?_ ?_ ?_, rfl, rfl, rfl⟩ <;>
      · simp only [helpPatterns, List.mem_cons, List.not_mem_nil, or_false] at h
        rcases h with h | h | h | h <;> rw [h] <;> decide
  obtain ⟨payload, hdet, hconf, hcit, hsrc⟩ := hsome
  refine ⟨payload, hdet, hconf, hcit, hsrc, ?_⟩
  intro retrieveFn generateFn buildPrompt
  unfold ask
  rw [hdet]

/-- Witness for C10: the greeting `Hello!` short-circuits `ask` for a
concrete retriever and backend. -/
theorem c10_conversational_bypass_witness :
    ∃ payload,
      detectConversational "Hello!" ["d.pdf"] = some payload ∧
      payload.confidence = 1 ∧ payload.citations = "" ∧ payload.sources = [] ∧
      ∀ retrieveFn generateFn buildPrompt,
        ask retrieveFn generateFn buildPrompt ["d.pdf"] "Hello!" = payload :=
  c10_conversational_bypass "Hello!" ["d.pdf"] (Or.inl (by decide))

/-! ## Page chunking (src/core/chunking.py lines 50-285)

Heading detection, sectioning, the per-document heading stack, section
labels, cross-reference extraction and chunk emission.  The three regular
expressions of the source are implemented as explicit character parsers
with the exact matching semantics of `re` on the patterns involved (the
alternations have pairwise distinct first letters and the greedy
repetitions are followed by tokens their character classes exclude, so
maximal-munch parsing coincides with backtracking). -/

/-- Case-insensitively strip a literal prefix (`pat` given lowercase). -/
def stripLitCI (pat : List Char) (cs : List Char) : Option (List Char) :=
  match pat, cs with
  | [], rest => some rest
  | _ :: _, [] => none
  | p :: ps, c :: rest => if c.toLower = p then stripLitCI ps rest else none

/-- Consume `\s+`: at least one whitespace character, maximally. -/
def parseWS1 (cs : List Char) : Option (List Char) :=
  let ws := cs.takeWhile isWS
  if ws = [] then none else some (cs.drop ws.length)

/-- Consume `(?:\.\d+)*` maximally, returning the consumed characters and
the remainder (fuelled by the input length; each step consumes at least
two characters). -/
def clauseTailGo : Nat → List Char → List Char × List Char
  | 0, cs => ([], cs)
  | fuel + 1, cs =>
    match cs with
    | '.' :: rest =>
      let ds := rest.takeWhile Char.isDigit
      if ds = [] then ([], cs)
      else
        let r := clauseTailGo fuel (rest.drop ds.length)
        ('.' :: (ds ++ r.1), r.2)
    | _ => ([], cs)

/-- `NUMBERED_SECTION_RE.match` (src/core/chunking.py lines 53-55):
`^(?:Section\s+)?(\d+(?:\.\d+)*)\.\s+(.*)` with `IGNORECASE`, returning
group 1 (the dotted clause label).  The trailing `(.*)` always matches, so
a match requires the number, a literal dot and at least one whitespace. -/
def matchNumbered (s : String) : Option String :=
  let cs := s.data
  let body :=
    match stripLitCI "section".data cs with
    | some rest =>
      match parseWS1 rest with
      | some r => r
      | none => cs
    | none => cs
  let ds := body.takeWhile Char.isDigit
  if ds = [] then none
  else
    let r := clauseTailGo (body.drop ds.length).length (body.drop ds.length)
    match r.2 with
    | '.' :: c :: _ => if isWS c then some (String.mk (ds ++ r.1)) else none
    | _ => none

/-- `ALLCAPS_HEADING_RE` (src/core/chunking.py line 58):
`^([A-Z][A-Z\s\-&/]{2,})$` — a capital followed by at least two characters
from the capital/whitespace/dash/ampersand/slash class. -/
def isAllCapsHeading (s : String) : Bool :=
  match s.data with
  | [] => false
  | c :: rest =>
    isUpperAZ c && decide (2 ≤ rest.length) &&
      rest.all (fun d => isUpperAZ d || isWS d || d == '-' || d == '&' || d == '/')

/-- `SECTION_KEYWORDS` (src/core/chunking.py lines 67-73).  The source
holds them in a Python `set`, whose iteration order is unspecified; the
literal order is used here, which only matters when a heading contains
several keywords. -/
def sectionKeywords : List String :=
  ["definitions", "exclusions", "coverage", "conditions", "endorsements",
   "general conditions", "special conditions", "claims", "how to claim",
   "what is covered", "what is not covered", "limits", "excess",
   "policy schedule", "insuring clause", "preamble", "declarations",
   "optional covers", "additional benefits", "extensions"]

/-- `_detect_section_label` (src/core/chunking.py lines 76-97): a stripped
line is a heading if it matches the numbered-section pattern, is an
all-caps line, or (lowercased, trailing colons removed) equals a known
section keyword; headings are stored truncated to 120 characters. -/
def detectSectionLabel (line : String) : Option String :=
  let stripped := pyStrip line
  if stripped = "" then none
  else if (matchNumbered stripped).isSome then some (pyTake 120 stripped)
  else if isAllCapsHeading stripped then some (pyTake 120 stripped)
  else if sectionKeywords.contains (pyRstrip [':'] (pyLower stripped)) then
    some (pyTake 120 stripped)
  else none

/-- One section of a page as built by `_split_into_sections`
(src/core/chunking.py lines 112-143). -/
structure PySection where
  heading : String
  clause : String
  lines : List String
deriving DecidableEq, Repr

/-- The line loop of `_split_into_sections`: a heading line closes the
current section (when it has lines) and opens a new one carrying the
heading and its clause number; other lines accumulate. -/
def sectionsGo : List String → List PySection → PySection → List PySection
  | [], acc, cur => if cur.lines ≠ [] then acc ++ [cur] else acc
  | line :: rest, acc, cur =>
    match detectSectionLabel line with
    | some heading =>
      let acc' := if cur.lines ≠ [] then acc ++ [cur] else acc
      let clause := (matchNumbered (pyStrip line)).getD ""
      sectionsGo rest acc' ⟨heading, clause, [line]⟩
    | none => sectionsGo rest acc ⟨cur.heading, cur.clause, cur.lines ++ [line]⟩

/-- `_split_into_sections` (src/core/chunking.py lines 112-143). -/
def splitIntoSections (text : String) : List PySection :=
  sectionsGo (pySplitLines text) [] ⟨"", "", []⟩

/-- The stack trim of `chunk_pages` (src/core/chunking.py lines 243-245):
`while len(stack) >= depth: stack.pop()`. -/
def trimStack (depth : Nat) (stack : List String) : List String :=
  if h : depth ≤ stack.length ∧ stack ≠ [] then trimStack depth stack.dropLast
  else stack
termination_by stack.length
decreasing_by
  rw [List.length_dropLast]
  have : stack.length ≠ 0 := fun hz => h.2 (List.eq_nil_of_length_eq_zero hz)
  omega

/-- The keyword alternation of `CROSS_REF_RE`
(src/core/chunking.py lines 61-64): `see`, `refer\s+to`,
`as\s+defined\s+in` or `under`, case-insensitively. -/
def crossRefKeyword (cs : List Char) : Option (List Char) :=
  match stripLitCI "see".data cs with
  | some r => some r
  | none =>
    match stripLitCI "refer".data cs with
    | some r => (parseWS1 r).bind (fun r2 => stripLitCI "to".data r2)
    | none =>
      match stripLitCI "as".data cs with
      | some r =>
        (parseWS1 r).bind (fun r2 =>
          (stripLitCI "defined".data r2).bind (fun r3 =>
            (parseWS1 r3).bind (fun r4 => stripLitCI "in".data r4)))
      | none => stripLitCI "under".data cs

/-- Attempt a `CROSS_REF_RE` match at the start of the character list,
returning the captured clause number and the remainder after the match. -/
def tryMatchCrossRef (cs : List Char) : Option (String × List Char) :=
  (crossRefKeyword cs).bind fun r1 =>
  (parseWS1 r1).bind fun r2 =>
  (match stripLitCI "section".data r2 with
   | some r => some r
   | none =>
     match stripLitCI "clause".data r2 with
     | some r => some r
     | none => stripLitCI "part".data r2).bind fun r3 =>
  (parseWS1 r3).bind fun r4 =>
  let ds := r4.takeWhile Char.isDigit
  if ds = [] then none
  else
    let r := clauseTailGo (r4.drop ds.length).length (r4.drop ds.length)
    some (String.mk (ds ++ r.1), r.2)

/-- The scan of `re.finditer`: try a match at every position, continuing
after each match (every match consumes at least one character, so the
input length is sufficient fuel). -/
def crossRefGo : Nat → List Char → List String
  | 0, _ => []
  | _, [] => []
  | fuel + 1, cs@(_ :: rest) =>
    match tryMatchCrossRef cs with
    | some (clause, rem) => clause :: crossRefGo fuel rem
    | none => crossRefGo fuel rest

/-- `_find_cross_references` (src/core/chunking.py lines 100-102). -/
def findCrossReferences (text : String) : List String :=
  crossRefGo text.data.length text.data

/-- The section-label derivation of `chunk_pages`
(src/core/chunking.py lines 253-260): first keyword contained in the
lowercased heading, title-cased; otherwise the heading's first 60
characters; empty for an empty heading. -/
def sectionLabelFor (heading : String) : String :=
  let fromKw :=
    if heading ≠ "" then
      match sectionKeywords.find? (fun kw => pyIn kw (pyLower heading)) with
      | some kw => titleCase kw
      | none => ""
    else ""
  if fromKw = "" ∧ heading ≠ "" then pyTake 60 heading else fromKw

/-- The chunk-emission loop of `chunk_pages`
(src/core/chunking.py lines 270-282): one `Chunk` per sub-chunk text, with
consecutive `chunk_id`s starting at `cid`. -/
def emitChunks (docName : String) (pageNum : Nat)
    (label clause headingPath : String) (crossRefs : List String) :
    List String → Nat → List Chunk
  | [], _ => []
  | t :: rest, cid =>
    { text := t, doc_name := docName, page := pageNum, sectionLabel := label,
      clause_number := clause, heading_path := headingPath,
      cross_references := crossRefs, chunk_id := cid } ::
      emitChunks docName pageNum label clause headingPath crossRefs rest (cid + 1)

/-- The per-section loop of `chunk_pages` (src/core/chunking.py lines
229-282) for one page: skip blank sections; push the heading onto the
document's stack (trimmed to the clause's dot-depth); derive the heading
path, section label and cross-references; sub-chunk and emit.  `stackMap` is
the per-document heading stack mapping (`heading_stack`), every document
starting from the empty stack. -/
def processSections (cs co ms : Nat) (docName : String) (pageNum : Nat) :
    List PySection → (String → List String) → Nat →
      List Chunk × (String → List String) × Nat
  | [], stackMap, cid => ([], stackMap, cid)
  | sec :: rest, stackMap, cid =>
    let sectionText := pyStrip (pyJoin "\n" sec.lines)
    if sectionText = "" then
      processSections cs co ms docName pageNum rest stackMap cid
    else
      let stackMapNew :=
        if sec.heading ≠ "" then
          let depth :=
            if sec.clause ≠ "" then (splitOnChar '.' sec.clause.data).length else 1
          let newStack := trimStack depth (stackMap docName) ++ [sec.heading]
          fun d => if d = docName then newStack else stackMap d
        else stackMap
      let stack := stackMapNew docName
      let headingPath := if stack ≠ [] then pyJoin " > " stack else ""
      let label := sectionLabelFor sec.heading
      let crossRefs := findCrossReferences sectionText
      let subChunks := subChunkText sectionText cs co ms
      let emitted := emitChunks docName pageNum label sec.clause headingPath crossRefs
        subChunks cid
      let r := processSections cs co ms docName pageNum rest stackMapNew (cid + subChunks.length)
      (emitted ++ r.1, r.2.1, r.2.2)

/-- The page loop of `chunk_pages` (src/core/chunking.py lines 221-282). -/
def chunkPagesGo (cs co ms : Nat) :
    List DocumentPage → (String → List String) → Nat → List Chunk
  | [], _, _ => []
  | page :: rest, stackMap, cid =>
    let r := processSections cs co ms page.doc_name page.page_num
      (splitIntoSections page.text) stackMap cid
    r.1 ++ chunkPagesGo cs co ms rest r.2.1 r.2.2

/-- `chunk_pages` (src/core/chunking.py lines 200-285), with the heading
stack starting empty for every document and `chunk_id` starting at 0. -/
def chunkPages (pages : List DocumentPage) (cs co ms : Nat) : List Chunk :=
  chunkPagesGo cs co ms pages (fun _ => []) 0

/-! ### C6: chunk ids are consecutive, texts non-empty -/

lemma range'_app (s m n : Nat) :
    List.range' s m ++ List.range' (s + m) n = List.range' s (m + n) := by
  have h := List.range'_append s m n 1
  rw [one_mul] at h
  rw [Nat.add_comm m n]
  exact h

lemma emitChunks_ids (docName : String) (pageNum : Nat)
    (label clause headingPath : String) (crossRefs : List String) :
    ∀ (texts : List String) (cid : Nat),
      (emitChunks docName pageNum label clause headingPath crossRefs texts cid).map
          (fun c => c.chunk_id) =
        List.range' cid texts.length := by
  intro texts
  induction texts with
  | nil => intro cid; rfl
  | cons t rest ih =>
    intro cid
    simp only [emitChunks, List.map_cons, List.length_cons]
    rw [ih (cid + 1)]
    rfl

lemma processSections_ids (cs co ms : Nat) (docName : String) (pageNum : Nat) :
    ∀ (secs : List PySection) (stackMap : String → List String) (cid : Nat),
      ∃ n,
        ((processSections cs co ms docName pageNum secs stackMap cid).1.map
            (fun c => c.chunk_id) = List.range' cid n) ∧
        (processSections cs co ms docName pageNum secs stackMap cid).2.2 = cid + n := by
  intro secs
  induction secs with
  | nil => intro stackMap cid; exact ⟨0, rfl, rfl⟩
  | cons sec rest ih =>
    intro stackMap cid
    simp only [processSections]
    split
    · exact ih stackMap cid
    · obtain ⟨m, hmap, hcid⟩ := ih _ (cid + (subChunkText
        (pyStrip (pyJoin "\n" sec.lines)) cs co ms).length)
      refine ⟨(subChunkText (pyStrip (pyJoin "\n" sec.lines)) cs co ms).length + m, ?_, ?_⟩
      · simp only [List.map_append]
        rw [emitChunks_ids, hmap, range'_app]
      · rw [hcid]
        omega

lemma chunkPagesGo_ids (cs co ms : Nat) :
    ∀ (pages : List DocumentPage) (stackMap : String → List String) (cid : Nat),
      ∃ n, (chunkPagesGo cs co ms pages stackMap cid).map (fun c => c.chunk_id) =
        List.range' cid n := by
  intro pages
  induction pages with
  | nil => intro stackMap cid; exact ⟨0, rfl⟩
  | cons page rest ih =>
    intro stackMap cid
    simp only [chunkPagesGo]
    obtain ⟨m, hmap, hcid⟩ := processSections_ids cs co ms page.doc_name page.page_num
      (splitIntoSections page.text) stackMap cid
    obtain ⟨k, hk⟩ := ih (processSections cs co ms page.doc_name page.page_num
      (splitIntoSections page.text) stackMap cid).2.1
      (processSections cs co ms page.doc_name page.page_num
        (splitIntoSections page.text) stackMap cid).2.2
    refine ⟨m + k, ?_⟩
    simp only [List.map_append]
    rw [hmap, hk, hcid, range'_app]

lemma mkString_ne {l : List Char} (h : l ≠ []) : String.mk l ≠ "" := by
  intro he
  exact h (by simpa using congrArg String.data he)

lemma head?_dropWhile_false {α} (p : α → Bool) (l : List α) (c : α)
    (h : (l.dropWhile p).head? = some c) : p c = false := by
  induction l with
  | nil => simp [List.dropWhile] at h
  | cons a t ih =>
    rw [List.dropWhile_cons] at h
    split at h
    · exact ih h
    · simp at h; subst h; simp_all

/-- The last character of a stripped string is never whitespace. -/
lemma stripList_last (l : List Char) :
    ∀ c, (stripList l).getLast? = some c → isWS c = false := by
  intro c hc
  unfold stripList at hc
  rw [List.getLast?_reverse] at hc
  exact head?_dropWhile_false isWS _ c hc

lemma splitSentencesGo_ne :
    ∀ (cs : List Char) (cur : List Char) (skipping : Bool),
      (cs = [] → cur ≠ []) →
      (∀ c, cs.getLast? = some c → isWS c = false) →
      ∀ x ∈ splitSentencesGo skipping cs cur, x ≠ "" := by
  intro cs
  induction cs with
  | nil =>
    intro cur skipping h1 _ x hx
    simp only [splitSentencesGo, List.mem_singleton] at hx
    subst hx
    exact mkString_ne (by simpa [List.reverse_eq_nil_iff] using h1 rfl)
  | cons c rest ih =>
    intro cur skipping h1 h2 x hx
    have hlast : ∀ d, rest.getLast? = some d → isWS d = false := by
      intro d hd
      apply h2
      cases rest with
      | nil => simp at hd
      | cons b l => rwa [List.getLast?_cons_cons]
    have hcws : rest = [] → isWS c = false := by
      intro hr
      apply h2
      rw [hr]
      rfl
    simp only [splitSentencesGo] at hx
    by_cases hskip : skipping = true
    · rw [if_pos hskip] at hx
      by_cases hws : isWS c = true
      · rw [if_pos hws] at hx
        refine ih cur true ?_ hlast x hx
        intro hr
        rw [hcws hr] at hws
        exact absurd hws (by decide)
      · rw [if_neg hws] at hx
        exact ih (c :: cur) false (fun _ => by simp) hlast x hx
    · rw [if_neg hskip] at hx
      split at hx
      · rename_i hcond
        have hws : isWS c = true := by
          have hc2 := hcond
          simp only [Bool.and_eq_true] at hc2
          exact hc2.1
        have hcur : cur ≠ [] := by
          intro he
          rw [he] at hcond
          simp at hcond
        rcases List.mem_cons.mp hx with hx | hx
        · subst hx
          exact mkString_ne (by simpa [List.reverse_eq_nil_iff] using hcur)
        · refine ih [] true ?_ hlast x hx
          intro hr
          rw [hcws hr] at hws
          exact absurd hws (by decide)
      · exact ih (c :: cur) false (fun _ => by simp) hlast x hx

/-- All sentence pieces of a non-empty text with a non-whitespace final
character are non-empty. -/
lemma splitSentences_ne (t : String) (h0 : t ≠ "")
    (hl : ∀ c, t.data.getLast? = some c → isWS c = false) :
    ∀ x ∈ splitSentences t, x ≠ "" := by
  refine splitSentencesGo_ne t.data [] false ?_ hl
  intro he
  apply absurd ?_ h0
  cases t with
  | mk d =>
    have hd : d = [] := by simpa using he
    subst hd
    rfl

lemma append_str_ne_left {a : String} (b : String) (h : a ≠ "") : a ++ b ≠ "" := by
  intro he
  apply h
  have := congrArg String.data he
  rw [String.data_append] at this
  rcases List.append_eq_nil.mp (by simpa using this) with ⟨ha, _⟩
  cases a with
  | mk d =>
    have hd : d = [] := by simpa using ha
    subst hd
    rfl

lemma pyJoin_cons_ne (x : String) (rest : List String) (hx : x ≠ "") :
    pyJoin " " (x :: rest) ≠ "" := by
  cases rest with
  | nil => exact hx
  | cons y t => exact append_str_ne_left _ (append_str_ne_left _ hx)

lemma overlapCollect_mem (co : Nat) :
    ∀ (l : List String) (ot : Nat) (x : String), x ∈ overlapCollect co l ot → x ∈ l := by
  intro l
  induction l with
  | nil => intro ot x hx; simp [overlapCollect] at hx
  | cons s rest ih =>
    intro ot x hx
    simp only [overlapCollect] at hx
    split at hx
    · simp at hx
    · rcases List.mem_append.mp hx with hx | hx
      · exact List.mem_cons_of_mem _ (ih _ x hx)
      · rw [List.mem_singleton.mp hx]; simp

lemma appendToLast_ne (s : String) :
    ∀ l : List String, (∀ x ∈ l, x ≠ "") → ∀ x ∈ appendToLast l s, x ≠ "" := by
  intro l
  induction l with
  | nil => intro _ x hx; simp [appendToLast] at hx
  | cons a rest ih =>
    intro h x hx
    cases rest with
    | nil =>
      simp only [appendToLast, List.mem_singleton] at hx
      subst hx
      exact append_str_ne_left _ (h a (by simp))
    | cons b t =>
      simp only [appendToLast, List.mem_cons] at hx
      rcases hx with hx | hx
      · subst hx; exact h x (by simp)
      · exact ih (fun d hd => h d (List.mem_cons_of_mem _ hd)) x hx

lemma subChunkGo_ne (cs co ms : Nat) :
    ∀ (sents chunks cur : List String) (curTok : Nat),
      (∀ x ∈ sents, x ≠ "") → (∀ x ∈ chunks, x ≠ "") → (∀ x ∈ cur, x ≠ "") →
      (∀ x ∈ (subChunkGo cs co ms sents chunks cur curTok).1, x ≠ "") ∧
      (∀ x ∈ (subChunkGo cs co ms sents chunks cur curTok).2, x ≠ "") := by
  intro sents
  induction sents with
  | nil => intro chunks cur curTok _ hchunks hcur; exact ⟨hchunks, hcur⟩
  | cons sent rest ih =>
    intro chunks cur curTok hsents hchunks hcur
    have hsent : sent ≠ "" := hsents sent (by simp)
    have hrest : ∀ x ∈ rest, x ≠ "" := fun x hx => hsents x (List.mem_cons_of_mem _ hx)
    simp only [subChunkGo]
    split
    · rename_i hcond
      have hjoin : pyJoin " " cur ≠ "" := by
        obtain ⟨c0, cur', rfl⟩ := List.exists_cons_of_ne_nil hcond.2
        exact pyJoin_cons_ne c0 cur' (hcur c0 (by simp))
      refine ih _ _ _ ?_ ?_ ?_
      · exact hrest
      · intro x hx
        split at hx
        · rcases List.mem_append.mp hx with hx | hx
          · exact hchunks x hx
          · rw [List.mem_singleton.mp hx]; exact hjoin
        · exact hchunks x hx
      · intro x hx
        rcases List.mem_append.mp hx with hx | hx
        · exact hcur x (List.mem_reverse.mp (overlapCollect_mem co _ _ x hx))
        · rw [List.mem_singleton.mp hx]; exact hsent
    · refine ih _ _ _ hrest hchunks ?_
      intro x hx
      rcases List.mem_append.mp hx with hx | hx
      · exact hcur x hx
      · rw [List.mem_singleton.mp hx]; exact hsent

/-- Every chunk text produced by `_sub_chunk_text` from a non-empty
stripped text is non-empty. -/
lemma subChunkText_ne (t : String) (cs co ms : Nat) (h0 : t ≠ "")
    (hsent : ∀ x ∈ splitSentences t, x ≠ "") :
    ∀ x ∈ subChunkText t cs co ms, x ≠ "" := by
  intro x hx
  unfold subChunkText at hx
  split_ifs at hx
  · rw [List.mem_singleton.mp hx]; exact h0
  · rw [List.mem_singleton.mp hx]; exact h0
  · simp at hx
  · obtain ⟨hgo1, hgo2⟩ := subChunkGo_ne cs co ms (splitSentences t) [] [] 0
      hsent (by simp) (by simp)
    by_cases h2 : (subChunkGo cs co ms (splitSentences t) [] [] 0).2 ≠ []
    · rw [if_pos h2] at hx
      have hjoin : pyJoin " " (subChunkGo cs co ms (splitSentences t) [] [] 0).2 ≠ "" := by
        obtain ⟨c0, cur', he⟩ := List.exists_cons_of_ne_nil h2
        rw [he]
        exact pyJoin_cons_ne c0 cur' (hgo2 c0 (by rw [he]; simp))
      simp only at hx
      split_ifs at hx
      · rcases List.mem_append.mp hx with hx | hx
        · exact hgo1 x hx
        · rw [List.mem_singleton.mp hx]; exact hjoin
      · exact appendToLast_ne _ _ hgo1 x hx
    · rw [if_neg h2] at hx
      exact hgo1 x hx

lemma emitChunks_text_mem (docName : String) (pageNum : Nat)
    (label clause headingPath : String) (crossRefs : List String) :
    ∀ (texts : List String) (cid : Nat) (c : Chunk),
      c ∈ emitChunks docName pageNum label clause headingPath crossRefs texts cid →
      c.text ∈ texts := by
  intro texts
  induction texts with
  | nil => intro cid c hc; simp [emitChunks] at hc
  | cons t rest ih =>
    intro cid c hc
    rcases List.mem_cons.mp hc with hc | hc
    · subst hc; simp
    · exact List.mem_cons_of_mem _ (ih (cid + 1) c hc)

lemma processSections_text_ne (cs co ms : Nat) (docName : String) (pageNum : Nat) :
    ∀ (secs : List PySection) (stackMap : String → List String) (cid : Nat),
      ∀ c ∈ (processSections cs co ms docName pageNum secs stackMap cid).1,
        c.text ≠ "" := by
  intro secs
  induction secs with
  | nil => intro stackMap cid c hc; simp [processSections] at hc
  | cons sec rest ih =>
    intro stackMap cid c hc
    simp only [processSections] at hc
    split at hc
    · exact ih _ _ c hc
    · rename_i hne
      rcases List.mem_append.mp hc with hc | hc
      · have hmem := emitChunks_text_mem docName pageNum _ _ _ _ _ _ c hc
        refine subChunkText_ne _ cs co ms hne ?_ _ hmem
        refine splitSentences_ne _ hne ?_
        intro ch hch
        exact stripList_last _ ch hch
      · exact ih _ _ c hc

lemma chunkPagesGo_text_ne (cs co ms : Nat) :
    ∀ (pages : List DocumentPage) (stackMap : String → List String) (cid : Nat),
      ∀ c ∈ chunkPagesGo cs co ms pages stackMap cid, c.text ≠ "" := by
  intro pages
  induction pages with
  | nil => intro stackMap cid c hc; simp [chunkPagesGo] at hc
  | cons page rest ih =>
    intro stackMap cid c hc
    simp only [chunkPagesGo] at hc
    rcases List.mem_append.mp hc with hc | hc
    · exact processSections_text_ne cs co ms _ _ _ _ _ c hc
    · exact ih _ _ c hc

/-- C6: for every page sequence and configuration, the chunks returned by
`chunk_pages` carry `chunk_id`s that are strictly increasing in emission
order (hence unique), and every emitted chunk's text is non-empty. -/
theorem c6_chunk_coverage (pages : List DocumentPage) (cs co ms : Nat) :
    (chunkPages pages cs co ms).Pairwise (fun a b => a.chunk_id < b.chunk_id) ∧
    ((chunkPages pages cs co ms).map (fun c => c.chunk_id)).Nodup ∧
    ∀ c ∈ chunkPages pages cs co ms, c.text ≠ "" := by
  obtain ⟨n, hn⟩ := chunkPagesGo_ids cs co ms pages (fun _ => []) 0
  have hpw : ((chunkPages pages cs co ms).map (fun c => c.chunk_id)).Pairwise (· < ·) := by
    unfold chunkPages
    rw [hn]
    exact List.pairwise_lt_range' 0 n
  refine ⟨List.pairwise_map.mp hpw, ?_, ?_⟩
  · unfold chunkPages
    rw [hn]
    exact List.nodup_range' 0 n
  · exact chunkPagesGo_text_ne cs co ms pages (fun _ => []) 0

end QABot
